import Mathlib

/-!
Formal model of the conversation index and ranked search engine implemented in
`src/chat.tsx` of the beeper/raycast extension.

The JavaScript code is shallowly embedded: strings are Lean `String`s
manipulated through their character lists, JS numbers used for scores are
modelled as `ℚ`, timestamps as `Int` (epoch milliseconds), and fallible
remote calls return `Except`.  Host functions that the code calls but whose
behaviour lives outside the repository are parameters of the model:

* `nfd` models `String.prototype.normalize("NFD")` (Unicode canonical
  decomposition), acting on character lists;
* `lowChar` models the per-character expansion of
  `String.prototype.toLowerCase()`;
* `fz` models one `Fuse.js` query of a single search term against a single
  field value (configured with `threshold: 0`), returning `some score` when
  the library reports a match with a non-null score and `none` otherwise;
* `dp` models `Date.parse` on ISO timestamp strings;
* the remote `searchChats` endpoint is a function from an inbox and an
  optional pagination cursor to `Except` of a page response.

All definitions are translated from the source of `chat.tsx`; theorem
statements refer to these definitions.
-/

namespace BeeperChat

/-! ### Character classes used by the regexes in `normalizeSearchValue` -/

/-- The space character (the replacement character of the punctuation
regexes and the separator used by `split(" ")`). -/
def spaceChar : Char := ' '

/-- Membership in the JavaScript `\s` class (whitespace), as used by the
`/\s+/g` regex and by `String.prototype.trim`. -/
def wsChar (c : Char) : Bool :=
  c.val = 32 || c.val = 9 || c.val = 10 || c.val = 11 || c.val = 12 || c.val = 13 ||
  c.val = 0xa0 || c.val = 0x1680 || (0x2000 ≤ c.val && c.val ≤ 0x200a) ||
  c.val = 0x2028 || c.val = 0x2029 || c.val = 0x202f || c.val = 0x205f ||
  c.val = 0x3000 || c.val = 0xfeff

/-- Combining diacritical marks `U+0300`–`U+036F`, stripped by the regex
`/[̀-ͯ]/g`. -/
def combiningMark (c : Char) : Bool :=
  0x300 ≤ c.val && c.val ≤ 0x36f

/-- The character class of the first punctuation regex `/[|!'^=]/g`. -/
def punct1 (c : Char) : Bool :=
  c.val = 124 || c.val = 33 || c.val = 39 || c.val = 94 || c.val = 61

/-- The character class of the second punctuation regex
`/[,;!?(){}[\]"'`~#$%^&*+=<>\\]/g`. -/
def punct2 (c : Char) : Bool :=
  c.val = 44 || c.val = 59 || c.val = 33 || c.val = 63 || c.val = 40 || c.val = 41 ||
  c.val = 123 || c.val = 125 || c.val = 91 || c.val = 93 || c.val = 34 || c.val = 39 ||
  c.val = 96 || c.val = 126 || c.val = 35 || c.val = 36 || c.val = 37 || c.val = 94 ||
  c.val = 38 || c.val = 42 || c.val = 43 || c.val = 61 || c.val = 60 || c.val = 62 ||
  c.val = 92

/-- `replace(/[|!'^=]/g, " ")`, per character. -/
def repl1 (c : Char) : Char := if punct1 c then spaceChar else c

/-- `replace(/[,;!?(){}[\]"'`~#$%^&*+=<>\\]/g, " ")`, per character. -/
def repl2 (c : Char) : Char := if punct2 c then spaceChar else c

/-- `replace(/[̀-ͯ]/g, "")`: drop the combining marks. -/
def stripMarks (l : List Char) : List Char := l.filter (fun c => !combiningMark c)

/-- Worker for `replace(/\s+/g, " ")`: the flag records whether the previous
character belonged to a whitespace run (in which case further whitespace is
absorbed into the single space already emitted). -/
def collapseGo : Bool → List Char → List Char
  | _, [] => []
  | prevWs, c :: cs =>
    if wsChar c then
      if prevWs then collapseGo true cs else spaceChar :: collapseGo true cs
    else c :: collapseGo false cs

/-- `replace(/\s+/g, " ")`: every maximal whitespace run becomes one space. -/
def collapseWs (l : List Char) : List Char := collapseGo false l

/-- `String.prototype.trim`: drop leading and trailing JS whitespace. -/
def trimWs (l : List Char) : List Char :=
  ((l.dropWhile (fun c => wsChar c)).reverse.dropWhile (fun c => wsChar c)).reverse

section TextModel

variable (nfd : List Char → List Char) (lowChar : Char → List Char)

/-- The character-list pipeline of `normalizeSearchValue`: NFD, strip
combining marks, lowercase, two punctuation replacements, whitespace
collapse, trim. -/
def normChars (l : List Char) : List Char :=
  trimWs (collapseWs ((((stripMarks (nfd l)).map lowChar).flatten.map repl1).map repl2))

/-- `normalizeSearchValue` on strings. -/
def normalizeSearchValue (s : String) : String :=
  String.mk (normChars nfd lowChar s.data)

/-- `String.prototype.trim` on strings (used for `query.trim()` and
`searchText.trim()`). -/
def jsTrim (s : String) : String := String.mk (trimWs s.data)

/-- `split(" ")`: cut on every single space character. -/
def splitSpGo : List Char → List Char → List (List Char)
  | acc, [] => [acc.reverse]
  | acc, c :: cs =>
    if c = spaceChar then acc.reverse :: splitSpGo [] cs else splitSpGo (c :: acc) cs

/-- `split(" ")` from the start of the list. -/
def splitSp (l : List Char) : List (List Char) := splitSpGo [] l

/-- `parseSearchTerms`: normalize, split on spaces, trim each piece, keep the
non-empty ones. -/
def parseSearchTerms (q : String) : List String :=
  ((((splitSp (normChars nfd lowChar q.data)).map trimWs).filter
      (fun t => t.length > 0)).map String.mk)

end TextModel

/-- `STOP_WORDS = new Set(["and"])`. -/
def STOP_WORDS : List String := ["and"]

/-! ### Data model -/

/-- One entry of `chat.participants.items`. -/
structure Participant where
  fullName : Option String
  username : Option String
  email : Option String
  phoneNumber : Option String
deriving DecidableEq, Inhabited

/-- The fields of a `BeeperDesktop.Chat` that the engine reads.  Optional
fields are `Option String`; `none` models `undefined`/`null`. -/
structure Chat where
  id : String
  title : Option String
  network : Option String
  type : String
  unreadCount : Nat
  isPinned : Bool
  isMuted : Bool
  isArchived : Bool
  lastActivity : Option String
  participants : List Participant
deriving DecidableEq, Inhabited

/-- JavaScript truthiness of an optional string (`undefined`, `null` and
`""` are falsy). -/
def truthyS : Option String → Bool
  | none => false
  | some s => s ≠ ""

/-- `x || ""` on an optional string. -/
def orEmpty : Option String → String
  | none => ""
  | some s => s

/-- `ChatSearchFields`: the normalized searchable fields of a chat. -/
structure ChatSearchFields where
  title : String
  network : String
  participants : List String
deriving DecidableEq, Inhabited

/-- `String(value).replace(/\D/g, "")`: keep only the decimal digits. -/
def digitsOnly (s : String) : String :=
  String.mk (s.data.filter (fun c => c.isDigit))

section FieldsModel

variable (nfd : List Char → List Char) (lowChar : Char → List Char)

/-- The composite search string of one participant: the truthy members of
`[fullName, username, email, digits-of-phone]`, each normalized, joined with
single spaces and trimmed. -/
def participantComposite (p : Participant) : String :=
  jsTrim (String.intercalate " "
    (([p.fullName, p.username, p.email,
        (if truthyS p.phoneNumber then some (digitsOnly (orEmpty p.phoneNumber)) else none)].filter
      (fun v => truthyS v)).map (fun v => normalizeSearchValue nfd lowChar (orEmpty v))))

/-- `buildSearchFields`: normalized title and network, plus the composite
strings of the first 50 participants, dropping falsy (empty) composites. -/
def buildSearchFields (chat : Chat) : ChatSearchFields :=
  { title := normalizeSearchValue nfd lowChar (orEmpty chat.title)
    network := normalizeSearchValue nfd lowChar (orEmpty chat.network)
    participants :=
      ((chat.participants.take 50).map (fun p => participantComposite nfd lowChar p)).filter
        (fun s => s ≠ "") }

end FieldsModel

/-! ### Search index (`ThreadSearchIndex`) -/

/-- The three searchable properties. -/
inductive SearchProperty
  | title
  | network
  | participants
deriving DecidableEq

/-- The value(s) a property contributes to the Fuse collection. -/
def propertyValues (f : ChatSearchFields) : SearchProperty → List String
  | .title => [f.title]
  | .network => [f.network]
  | .participants => f.participants

/-- `PropertyScore`. -/
structure PropertyScore where
  minScore : ℚ
  hits : Nat
deriving DecidableEq

/-- `Number.MAX_SAFE_INTEGER`, the sentinel minimum score of an unmatched
property. -/
def MAX_SAFE_INTEGER : ℚ := 9007199254740991

/-- `computeScore`. -/
def computeScore (scores : List ℚ) : PropertyScore :=
  match scores with
  | [] => { minScore := MAX_SAFE_INTEGER, hits := 0 }
  | s :: rest => { minScore := rest.foldl min s, hits := (s :: rest).length }

/-- `SearchableScore`. -/
structure SearchableScore where
  title : PropertyScore
  network : PropertyScore
  participants : PropertyScore
deriving DecidableEq

/-- `SearchableMatch`: the per-chat accumulator of the search loop.  The JS
`Set` of matched terms is modelled as a duplicate-free list in insertion
order. -/
structure SearchableMatch where
  id : String
  title : List ℚ
  network : List ℚ
  participants : List ℚ
  matchedSearchTerms : List String
deriving DecidableEq

/-- `match[property].push(score)`. -/
def SearchableMatch.push (m : SearchableMatch) (p : SearchProperty) (s : ℚ) : SearchableMatch :=
  match p with
  | .title => { m with title := m.title ++ [s] }
  | .network => { m with network := m.network ++ [s] }
  | .participants => { m with participants := m.participants ++ [s] }

/-- `match.matchedSearchTerms.add(term)`. -/
def SearchableMatch.addTerm (m : SearchableMatch) (t : String) : SearchableMatch :=
  if m.matchedSearchTerms.contains t then m
  else { m with matchedSearchTerms := m.matchedSearchTerms ++ [t] }

/-- `computeScoreFromMatch`. -/
def computeScoreFromMatch (m : SearchableMatch) : SearchableScore :=
  { title := computeScore m.title
    network := computeScore m.network
    participants := computeScore m.participants }

/-- `SearchIndexItem`. -/
structure SearchIndexItem where
  id : String
  searchFields : ChatSearchFields
deriving DecidableEq

/-- `SearchIndexResult`. -/
structure SearchIndexResult where
  id : String
  score : SearchableScore
  matchSearchTerms : List String
deriving DecidableEq

section SearchModel

variable (nfd : List Char → List Char) (lowChar : Char → List Char)
variable (fz : String → String → Option ℚ)

/-- The score `Fuse` reports for one term against one property of one item:
the matched value with the best (least) score, `none` when no value of the
property matches. -/
def fuzzyScore (vals : List String) (t : String) : Option ℚ :=
  match vals.filterMap (fun v => fz t v) with
  | [] => none
  | s :: rest => some (rest.foldl min s)

/-- One `fuse.search({ "searchFields.<p>": term })` call: every collection
item whose property `p` matches `term`, with its score, in collection
order. -/
def fuseSearchProp (collection : List SearchIndexItem) (p : SearchProperty) (t : String) :
    List (SearchIndexItem × ℚ) :=
  collection.filterMap (fun it =>
    (fuzzyScore fz (propertyValues it.searchFields p) t).map (fun s => (it, s)))

/-- `getOrCreateMatch` followed by the `push`/`add` of one Fuse result,
acting on the insertion-ordered map of matches. -/
def addResult (acc : List SearchableMatch) (id : String) (p : SearchProperty) (s : ℚ)
    (t : String) : List SearchableMatch :=
  if acc.any (fun m => m.id = id) then
    acc.map (fun m => if m.id = id then (m.push p s).addTerm t else m)
  else acc ++ [(SearchableMatch.push ⟨id, [], [], [], []⟩ p s).addTerm t]

/-- The triple loop of `ThreadSearchIndex.search` accumulating matches over
terms, properties and Fuse results. -/
def searchAccum (collection : List SearchIndexItem) (searchTerms : List String)
    (props : List SearchProperty) : List SearchableMatch :=
  searchTerms.foldl (fun acc t =>
    props.foldl (fun acc p =>
      (fuseSearchProp fz collection p t).foldl (fun acc pr => addResult acc pr.1.id p pr.2 t) acc)
      acc) []

/-- `ThreadSearchIndex.search`. -/
def threadSearch (collection : List SearchIndexItem) (q : String)
    (props : List SearchProperty) : List SearchIndexResult :=
  if jsTrim q = "" then []
  else
    let searchTerms := parseSearchTerms nfd lowChar q
    let found := searchAccum fz collection searchTerms props
    let requiredTerms := searchTerms.filter (fun t => !STOP_WORDS.contains t)
    (found.filter (fun m =>
        !(requiredTerms.length > 0 && !(requiredTerms.all (fun t => m.matchedSearchTerms.contains t))))).map
      (fun m => ⟨m.id, computeScoreFromMatch m, m.matchedSearchTerms⟩)

end SearchModel

/-! ### Cache state and timestamps -/

/-- The three indexed inbox partitions (`INDEXED_INBOXES`). -/
inductive ChatInbox
  | primary
  | lowPriority
  | archive
deriving DecidableEq, Inhabited

/-- `IndexedChat`. -/
structure IndexedChat where
  chat : Chat
  inbox : ChatInbox
  searchFields : ChatSearchFields
deriving DecidableEq, Inhabited

/-- One partition's pair of pagination cursors. -/
structure CursorPair where
  newestCursor : Option String
  oldestCursor : Option String
deriving DecidableEq, Inhabited

/-- The per-partition cursor record of `ChatIndexState`. -/
structure Cursors where
  primary : CursorPair
  lowPriority : CursorPair
  archive : CursorPair
deriving DecidableEq, Inhabited

/-- Read the cursor pair of one partition. -/
def Cursors.get (c : Cursors) : ChatInbox → CursorPair
  | .primary => c.primary
  | .lowPriority => c.lowPriority
  | .archive => c.archive

/-- Replace the cursor pair of one partition. -/
def Cursors.set (c : Cursors) : ChatInbox → CursorPair → Cursors
  | .primary, p => { c with primary := p }
  | .lowPriority, p => { c with lowPriority := p }
  | .archive, p => { c with archive := p }

/-- `emptyCursors`. -/
def emptyCursors : Cursors := ⟨⟨none, none⟩, ⟨none, none⟩, ⟨none, none⟩⟩

/-- `ChatIndexState`. -/
structure ChatIndexState where
  items : List IndexedChat
  cursors : Cursors
  updatedAt : Int
deriving DecidableEq, Inhabited

/-- `defaultIndexState`. -/
def defaultIndexState : ChatIndexState := ⟨[], emptyCursors, 0⟩

/-- `MAX_INDEXD_CHATS_TARGET`. -/
def MAX_INDEXD_CHATS_TARGET : Nat := 20000

/-- `INDEX_MAX_PAGES`. -/
def INDEX_MAX_PAGES : Nat := 50

/-- `INDEX_MAX_PAGES_INCREMENTAL`. -/
def INDEX_MAX_PAGES_INCREMENTAL : Nat := 3

section TimeModel

variable (dp : String → Option Int)

/-- `getChatTimestamp`: epoch milliseconds of `chat.lastActivity`, `0` for a
falsy or unparsable value (`dp` models `Date.parse`). -/
def getChatTimestamp (chat : Chat) : Int :=
  if truthyS chat.lastActivity then
    match dp (orEmpty chat.lastActivity) with
    | none => 0
    | some ts => ts
  else 0

/-- `sortIndexedChatsByActivity`: stable sort by last-activity timestamp,
descending (`Array.prototype.sort` with a consistent comparator is modelled
by the stable `insertionSort`). -/
def sortIndexedChatsByActivity (items : List IndexedChat) : List IndexedChat :=
  List.insertionSort
    (fun a b => getChatTimestamp dp b.chat ≤ getChatTimestamp dp a.chat) items

/-- `sortChatsByActivity`. -/
def sortChatsByActivity (items : List Chat) : List Chat :=
  List.insertionSort (fun a b => getChatTimestamp dp b ≤ getChatTimestamp dp a) items

end TimeModel

/-- `mergeIndexedChats`: identifier-keyed merge, later writes win, JS `Map`
insertion order (an overwritten identifier keeps its original position, new
identifiers append). -/
def mapSet (l : List IndexedChat) (x : IndexedChat) : List IndexedChat :=
  if l.any (fun y => y.chat.id = x.chat.id) then
    l.map (fun y => if y.chat.id = x.chat.id then x else y)
  else l ++ [x]

/-- `mergeIndexedChats base updates`. -/
def mergeIndexedChats (base updates : List IndexedChat) : List IndexedChat :=
  (base ++ updates).foldl mapSet []

/-! ### Filters and the ranked `chats` list -/

/-- `InboxFilter`. -/
inductive InboxFilter
  | all
  | primary
  | lowPriority
  | archive
deriving DecidableEq

/-- The inbox filter matches a partition. -/
def inboxMatches : InboxFilter → ChatInbox → Bool
  | .all, _ => true
  | .primary, i => i = ChatInbox.primary
  | .lowPriority, i => i = ChatInbox.lowPriority
  | .archive, i => i = ChatInbox.archive

/-- `ChatFilters` (the type filter is kept as the raw string so that the
`"channel" → "any"` normalization of the code can be modelled). -/
structure ChatFilters where
  inbox : InboxFilter
  type : String
  unreadOnly : Bool
  includeMuted : Bool
deriving DecidableEq

/-- `normalizedType`: a stale cached `"channel"` value behaves as `"any"`. -/
def normalizedType (filters : ChatFilters) : String :=
  if filters.type = "channel" then "any" else filters.type

/-- The filter predicate of the `chats` memo. -/
def passesFilters (filters : ChatFilters) (item : IndexedChat) : Bool :=
  (inboxMatches filters.inbox item.inbox) &&
  (filters.includeMuted || !item.chat.isMuted) &&
  (!(filters.unreadOnly && item.chat.unreadCount = 0)) &&
  (normalizedType filters = "any" || item.chat.type = normalizedType filters)

/-- Whether `pre` is a prefix of `s` (`String.prototype.startsWith`). -/
def listPrefixTest : List Char → List Char → Bool
  | [], _ => true
  | _ :: _, [] => false
  | a :: as, b :: bs => a = b && listPrefixTest as bs

/-- `new Map(entries)` lookup: the value of the last entry with the key. -/
def lookupLast (l : List IndexedChat) (id : String) : Option IndexedChat :=
  l.foldl (fun acc it => if it.chat.id = id then some it else acc) none

/-- One element of the `scored` array. -/
structure ScoredChat where
  chat : Chat
  exactTitle : Bool
  prefixTitle : Bool
  titleHits : Nat
  participantHits : Nat
  networkHits : Nat
  isSingle : Bool
  timestamp : Int
deriving DecidableEq

/-- `recencyBoost`: `Math.max(0, 30 - (now - timestamp) / 86400000)` as a
rational number of days. -/
def recencyBoost (now ts : Int) : ℚ :=
  max 0 (30 - ((now : ℚ) - (ts : ℚ)) / (24 * 60 * 60 * 1000))

/-- The ranking comparator passed to `scored.sort`; negative means `a`
before `b`. -/
def rankCmp (now : Int) (a b : ScoredChat) : ℚ :=
  if a.exactTitle ≠ b.exactTitle then (if a.exactTitle then -1 else 1)
  else if a.prefixTitle ≠ b.prefixTitle then (if a.prefixTitle then -1 else 1)
  else if recencyBoost now a.timestamp ≠ recencyBoost now b.timestamp then
    recencyBoost now b.timestamp - recencyBoost now a.timestamp
  else if a.titleHits ≠ b.titleHits then (b.titleHits : ℚ) - (a.titleHits : ℚ)
  else if a.participantHits ≠ b.participantHits then
    (b.participantHits : ℚ) - (a.participantHits : ℚ)
  else if a.isSingle ≠ b.isSingle then (if a.isSingle then -1 else 1)
  else if a.networkHits ≠ b.networkHits then (b.networkHits : ℚ) - (a.networkHits : ℚ)
  else (b.timestamp : ℚ) - (a.timestamp : ℚ)

section RankModel

variable (nfd : List Char → List Char) (lowChar : Char → List Char)
variable (fz : String → String → Option ℚ) (dp : String → Option Int)

/-- Build one `scored` entry from a search result, when the result's chat
survives the filters. -/
def mkScored (filtered : List IndexedChat) (normalizedQuery : String)
    (r : SearchIndexResult) : Option ScoredChat :=
  (lookupLast filtered r.id).map (fun indexed =>
    { chat := indexed.chat
      exactTitle := normalizedQuery.length > 0 && indexed.searchFields.title = normalizedQuery
      prefixTitle := normalizedQuery.length > 0 &&
        listPrefixTest normalizedQuery.data indexed.searchFields.title.data
      titleHits := r.score.title.hits
      participantHits := r.score.participants.hits
      networkHits := r.score.network.hits
      isSingle := indexed.chat.type = "single"
      timestamp := getChatTimestamp dp indexed.chat })

/-- The `chats` memo: filter the cached items, then either sort by activity
(empty token list) or score the search results and sort them with
`rankCmp`. -/
def chatsList (items : List IndexedChat) (filters : ChatFilters) (searchText : String)
    (now : Int) : List Chat :=
  let trimmedQuery := jsTrim searchText
  let filtered := items.filter (passesFilters filters)
  if parseSearchTerms nfd lowChar trimmedQuery = [] then
    sortChatsByActivity dp (filtered.map (fun item => item.chat))
  else
    let normalizedQuery := normalizeSearchValue nfd lowChar trimmedQuery
    let collection := items.map (fun item => SearchIndexItem.mk item.chat.id item.searchFields)
    let results := threadSearch nfd lowChar fz collection trimmedQuery
      [SearchProperty.title, SearchProperty.network, SearchProperty.participants]
    let scored := results.filterMap (mkScored dp filtered normalizedQuery)
    (List.insertionSort (fun a b => rankCmp now a b ≤ 0) scored).map (fun s => s.chat)

end RankModel

/-- The tier order the specification describes: exact title match first,
then prefix title match, then recency boost descending, title hits
descending, participant hits descending, single chats before groups,
network hits descending, and last-activity timestamp descending as the
final tie-break. -/
def rankBefore (now : Int) (a b : ScoredChat) : Prop :=
  (a.exactTitle = true ∧ b.exactTitle = false) ∨
  (a.exactTitle = b.exactTitle ∧
    ((a.prefixTitle = true ∧ b.prefixTitle = false) ∨
      (a.prefixTitle = b.prefixTitle ∧
        (recencyBoost now b.timestamp < recencyBoost now a.timestamp ∨
          (recencyBoost now a.timestamp = recencyBoost now b.timestamp ∧
            (b.titleHits < a.titleHits ∨
              (a.titleHits = b.titleHits ∧
                (b.participantHits < a.participantHits ∨
                  (a.participantHits = b.participantHits ∧
                    ((a.isSingle = true ∧ b.isSingle = false) ∨
                      (a.isSingle = b.isSingle ∧
                        (b.networkHits < a.networkHits ∨
                          (a.networkHits = b.networkHits ∧
                            b.timestamp < a.timestamp)))))))))))))

/-! ### Cache/Index store: `fetchInbox` and `refreshIndex` -/

/-- The refresh mode. -/
inductive RefreshMode
  | full
  | incremental
deriving DecidableEq

/-- One page returned by the remote `searchChats` endpoint. -/
structure PageResponse where
  items : List Chat
  hasMore : Bool
  newestCursor : Option String
  oldestCursor : Option String
  nextCursor : Option String
  cursor : Option String
deriving DecidableEq, Inhabited

/-- The result of `fetchInbox` for one partition.  `pagesFetched` is ghost
instrumentation counting the page requests the loop issued; it is
incremented exactly once per received response and read by no definition. -/
structure FetchOut where
  items : List IndexedChat
  newestCursor : Option String
  oldestCursor : Option String
  pagesFetched : Nat
deriving DecidableEq

/-- The environment of a refresh: the remote endpoint (per partition and
cursor; an `Except.error` models a thrown promise rejection) and the clock
`Date.now()`. -/
structure RefreshEnv where
  fetchPage : ChatInbox → Option String → Except String PageResponse
  now : Int

section StoreModel

variable (nfd : List Char → List Char) (lowChar : Char → List Char)
variable (dp : String → Option Int)

/-- The pagination loop of `fetchInbox`.  `fuel` is the number of loop
iterations left (`maxPages - page`), `isFirst` tells whether this is page 0,
`cursor` the request cursor, `newest`/`oldest` the running cursor
accumulators, `acc` the collected items and `pages` the ghost request
count. -/
def fetchInboxGo (fp : Option String → Except String PageResponse) (inbox : ChatInbox)
    (mode : RefreshMode) :
    Nat → Bool → Option String → Option String → Option String → List IndexedChat → Nat →
      Except String FetchOut
  | 0, _, _, newest, oldest, acc, pages => .ok ⟨acc, newest, oldest, pages⟩
  | fuel + 1, isFirst, cursor, newest, oldest, acc, pages =>
    match fp cursor with
    | .error e => .error e
    | .ok resp =>
      let newest1 := if isFirst && truthyS resp.newestCursor then resp.newestCursor else newest
      let oldest1 := if truthyS resp.oldestCursor then resp.oldestCursor else oldest
      let acc1 := acc ++ resp.items.map
        (fun chat => ⟨chat, inbox, buildSearchFields nfd lowChar chat⟩)
      let pages1 := pages + 1
      if mode = RefreshMode.incremental || !resp.hasMore then .ok ⟨acc1, newest1, oldest1, pages1⟩
      else
        let nextCursor := (resp.oldestCursor.orElse fun _ => resp.nextCursor).orElse
          fun _ => resp.cursor
        if truthyS nextCursor then
          fetchInboxGo fp inbox mode fuel false nextCursor newest1 oldest1 acc1 pages1
        else .ok ⟨acc1, newest1, oldest1, pages1⟩

/-- `fetchInbox`: up to `INDEX_MAX_PAGES` (full) or
`INDEX_MAX_PAGES_INCREMENTAL` (incremental) pages, starting with no cursor,
cursors defaulting to the stored pair. -/
def fetchInbox (fp : Option String → Except String PageResponse) (inbox : ChatInbox)
    (mode : RefreshMode) (stored : CursorPair) : Except String FetchOut :=
  fetchInboxGo nfd lowChar fp inbox mode
    (if mode = RefreshMode.incremental then INDEX_MAX_PAGES_INCREMENTAL else INDEX_MAX_PAGES)
    true none stored.newestCursor stored.oldestCursor [] 0

/-- `Promise.all` over the three partitions: all three page sequences, or
the error of a failed one. -/
def refreshFetchAll (env : RefreshEnv) (mode : RefreshMode) (base : ChatIndexState) :
    Except String (FetchOut × FetchOut × FetchOut) :=
  match fetchInbox nfd lowChar (env.fetchPage ChatInbox.primary) ChatInbox.primary mode
      base.cursors.primary with
  | .error e => .error e
  | .ok p =>
    match fetchInbox nfd lowChar (env.fetchPage ChatInbox.lowPriority) ChatInbox.lowPriority mode
        base.cursors.lowPriority with
    | .error e => .error e
    | .ok l =>
      match fetchInbox nfd lowChar (env.fetchPage ChatInbox.archive) ChatInbox.archive mode
          base.cursors.archive with
      | .error e => .error e
      | .ok a => .ok (p, l, a)

/-- The `results.forEach` body for one partition: merge its items and update
its cursor pair. -/
def applyResult (st : ChatIndexState) (inbox : ChatInbox) (r : FetchOut) : ChatIndexState :=
  { st with
    items := mergeIndexedChats st.items r.items
    cursors := st.cursors.set inbox
      ⟨r.newestCursor.orElse fun _ => (st.cursors.get inbox).newestCursor,
        r.oldestCursor.orElse fun _ => (st.cursors.get inbox).oldestCursor⟩ }

/-- The component state `refreshIndex` works on: the single-flight flag, the
loading flag, the persisted/in-memory `ChatIndexState` (written only by the
`setIndexState` call on the success path) and the surfaced error. -/
structure Store where
  inFlight : Bool
  refreshing : Bool
  index : ChatIndexState
  error : Option String
deriving DecidableEq

/-- The synchronous prefix of `refreshIndex` after the guard passes:
`refreshInFlight.current = true`, `setIsIndexRefreshing(true)`,
`setError(undefined)`. -/
def markStore (st : Store) : Store :=
  { st with inFlight := true, refreshing := true, error := none }

/-- `base`: the default state for a full refresh, the current state
otherwise. -/
def baseState (mode : RefreshMode) (st : Store) : ChatIndexState :=
  if mode = RefreshMode.full then defaultIndexState else st.index

/-- The `results.forEach` loop applied to the three partition results in
order. -/
def refreshMergedState (base : ChatIndexState) (results : FetchOut × FetchOut × FetchOut) :
    ChatIndexState :=
  applyResult (applyResult (applyResult base ChatInbox.primary results.1)
    ChatInbox.lowPriority results.2.1) ChatInbox.archive results.2.2

/-- The item list after the three merges, before sorting and truncation. -/
def refreshMergedItems (base : ChatIndexState) (results : FetchOut × FetchOut × FetchOut) :
    List IndexedChat :=
  (refreshMergedState base results).items

/-- The new `ChatIndexState` committed on a fully successful refresh: merge
the three partition results in order, sort by activity descending, truncate
to `MAX_INDEXD_CHATS_TARGET`, stamp `updatedAt`. -/
def refreshSuccessState (env : RefreshEnv) (base : ChatIndexState)
    (results : FetchOut × FetchOut × FetchOut) : ChatIndexState :=
  { refreshMergedState base results with
    items := (sortIndexedChatsByActivity dp
      (refreshMergedItems base results)).take MAX_INDEXD_CHATS_TARGET
    updatedAt := env.now }

/-- The awaited remainder of `refreshIndex` after the synchronous prefix:
the `try`/`catch`/`finally` around the partition fetches, with `base` the
state captured synchronously at the start. -/
def completeRefresh (env : RefreshEnv) (mode : RefreshMode) (base : ChatIndexState)
    (st : Store) : Store :=
  match refreshFetchAll nfd lowChar env mode base with
  | .ok results =>
    { st with
      index := refreshSuccessState dp env base results
      inFlight := false
      refreshing := false }
  | .error e => { st with error := some e, inFlight := false, refreshing := false }

/-- One complete `refreshIndex(mode)` call with no interleaved caller.  The
boolean reports whether the call started a fetch sequence. -/
def refreshIndexCall (env : RefreshEnv) (mode : RefreshMode) (st : Store) : Store × Bool :=
  if st.inFlight then (st, false)
  else
    let st1 := markStore st
    (completeRefresh nfd lowChar dp env mode (baseState mode st1) st1, true)

/-- Two refresh requests where the second arrives while the first is
suspended at its `await`: the first call runs its synchronous prefix
(guard, flags, base capture), the second call then runs in full, and the
first call's awaited remainder completes afterwards.  The number counts the
fetch sequences started. -/
def overlappedRefresh (env : RefreshEnv) (m1 m2 : RefreshMode) (st : Store) : Store × Nat :=
  if st.inFlight then (st, 0)
  else
    let st1 := markStore st
    let base := baseState m1 st1
    let second := refreshIndexCall nfd lowChar dp env m2 st1
    let final := completeRefresh nfd lowChar dp env m1 base second.1
    (final, 1 + (if second.2 then 1 else 0))

end StoreModel

/-! ### View composer: sections and visits -/

/-- The section contents computed by `ChatListView` from the ranked list
`chats`, the persisted recent ids and the frecency-sorted list. -/
structure Sections where
  pinned : List Chat
  unread : List Chat
  recent : List Chat
  frequent : List Chat
  other : List Chat
deriving DecidableEq

/-- `new Map(chats.map(c => [c.id, c]))` lookup (last entry wins). -/
def lookupLastChat (l : List Chat) (id : String) : Option Chat :=
  l.foldl (fun acc c => if c.id = id then some c else acc) none

/-- The section computation of `ChatListView` (`pinnedChats`, `unreadChats`,
`recentChats`, `frequentChats`, `otherChats`). -/
def computeSections (showUnreadSection : Bool) (chats : List Chat)
    (recentChatIDs : List String) (frecencyChats : List Chat) : Sections :=
  let pinnedChats := chats.filter (fun c => c.isPinned)
  let unreadChats := chats.filter (fun c => c.unreadCount > 0 && !c.isPinned)
  let pinnedIDs := pinnedChats.map (fun c => c.id)
  let unreadIDs := if showUnreadSection then unreadChats.map (fun c => c.id) else []
  let recentIDs := recentChatIDs
  let recentChats := (recentChatIDs.filterMap (lookupLastChat chats)).filter
    (fun c => !pinnedIDs.contains c.id && !unreadIDs.contains c.id)
  let frequentChats := (frecencyChats.filter (fun c =>
    !pinnedIDs.contains c.id && !unreadIDs.contains c.id && !recentIDs.contains c.id)).take 8
  let otherChats := chats.filter (fun c =>
    !pinnedIDs.contains c.id && !unreadIDs.contains c.id && !recentIDs.contains c.id &&
      !(frequentChats.any (fun f => f.id = c.id)))
  ⟨pinnedChats, unreadChats, recentChats, frequentChats, otherChats⟩

/-- The chats actually rendered, in section order: the Unread section only
when `showUnreadSection` and non-empty, the Recent and Frequently Used
sections only when `showSmartSections` and the query is empty. -/
def renderedChats (showSmartSections showUnreadSection : Bool) (trimmedQuery : String)
    (chats : List Chat) (recentChatIDs : List String) (frecencyChats : List Chat) : List Chat :=
  let s := computeSections showUnreadSection chats recentChatIDs frecencyChats
  let showSections := showSmartSections && trimmedQuery.length = 0
  let showUnread := showUnreadSection && s.unread.length > 0
  s.pinned ++ (if showUnread then s.unread else []) ++
    (if showSections then s.recent else []) ++
    (if showSections then s.frequent else []) ++ s.other

/-- The view-local state a visit event touches, together with the cache
state it must not touch.  `visitLog` stands for the opaque frecency ranking
updated by `visitItem`. -/
structure ViewState where
  index : ChatIndexState
  recentChatIDs : List String
  lastChatID : Option String
  visitLog : List String
deriving DecidableEq

/-- `markChatVisited`: outside smart-section views it is a no-op; otherwise
it records the visit, stores the last id, and moves the id to the front of
the de-duplicated recent list capped at 12. -/
def markChatVisited (showSmartSections : Bool) (chat : Chat) (st : ViewState) : ViewState :=
  if !showSmartSections then st
  else
    { st with
      visitLog := st.visitLog ++ [chat.id]
      lastChatID := some chat.id
      recentChatIDs := (chat.id :: st.recentChatIDs.filter (fun id => id ≠ chat.id)).take 12 }

/-! ### Concrete instantiations of the host parameters, used by witnesses.
On ASCII input, `String.prototype.normalize("NFD")` is the identity and
`toLowerCase` maps each already-lowercase character to itself, so these
instantiations agree with the host functions on the concrete ASCII inputs
below. -/

/-- Identity instantiation of the NFD parameter. -/
def idNfd : List Char → List Char := fun l => l

/-- Identity (per-character) instantiation of the lowercasing parameter. -/
def idLow : Char → List Char := fun c => [c]

/-- Fuse instantiation used by witnesses: a term matches a field value
exactly, with score `0`. -/
def eqFz : String → String → Option ℚ := fun t v => if t = v then some 0 else none

/-- `Date.parse` instantiation used by witnesses: nothing parses. -/
def zeroDp : String → Option Int := fun _ => none

/-! ### Small list lemmas about the text pipeline -/

/-- Segments produced by `split(" ")` contain no space. -/
theorem splitSpGo_no_space :
    ∀ (l acc : List Char), (∀ c ∈ acc, c ≠ spaceChar) →
      ∀ seg ∈ splitSpGo acc l, ∀ c ∈ seg, c ≠ spaceChar := by
  intro l
  induction l with
  | nil =>
    intro acc hacc seg hseg c hc
    simp only [splitSpGo, List.mem_singleton] at hseg
    exact hacc c (List.mem_reverse.mp (hseg ▸ hc))
  | cons d ds ih =>
    intro acc hacc seg hseg c hc
    by_cases hd : d = spaceChar
    · rw [splitSpGo, if_pos hd] at hseg
      rcases List.mem_cons.mp hseg with h | h
      · exact hacc c (List.mem_reverse.mp (h ▸ hc))
      · exact ih [] (by simp) seg h c hc
    · rw [splitSpGo, if_neg hd] at hseg
      refine ih (d :: acc) ?_ seg hseg c hc
      intro e he
      rcases List.mem_cons.mp he with h | h
      · exact h ▸ hd
      · exact hacc e h

/-- `trimWs` yields a contiguous sublist. -/
theorem trimWs_contiguous (l : List Char) : trimWs l <:+: l := by
  unfold trimWs
  have h1 : l.dropWhile (fun c => wsChar c) <:+ l := List.dropWhile_suffix _
  have h2 : (l.dropWhile (fun c => wsChar c)).reverse.dropWhile (fun c => wsChar c) <:+
      (l.dropWhile (fun c => wsChar c)).reverse := List.dropWhile_suffix _
  have h3 := List.reverse_prefix.mpr h2
  rw [List.reverse_reverse] at h3
  exact h3.isInfix.trans h1.isInfix

/-- Members of `trimWs l` are members of `l`. -/
theorem mem_trimWs {a : Char} {l : List Char} (h : a ∈ trimWs l) : a ∈ l :=
  (trimWs_contiguous l).subset h

/-! ### C9: recording a visit -/

/-- C9: recording a visit in a smart-sections view puts the visited id at
the front of the recent list, de-duplicates it (the id occurs exactly once
afterwards), caps the list at 12 entries, and never changes the cache
state; visiting `c1`, `c2`, `c1` from an empty state leaves the recent list
`["c1", "c2"]`. -/
theorem markChatVisited_spec (st : ViewState) (chat : Chat) :
    ((markChatVisited true chat st).recentChatIDs.head? = some chat.id) ∧
    ((markChatVisited true chat st).recentChatIDs.count chat.id = 1) ∧
    ((markChatVisited true chat st).recentChatIDs.length ≤ 12) ∧
    (∀ b : Bool, (markChatVisited b chat st).index = st.index) ∧
    ((markChatVisited true ⟨"c1", none, none, "single", 0, false, false, false, none, []⟩
        (markChatVisited true ⟨"c2", none, none, "single", 0, false, false, false, none, []⟩
          (markChatVisited true ⟨"c1", none, none, "single", 0, false, false, false, none, []⟩
            ⟨defaultIndexState, [], none, []⟩))).recentChatIDs = ["c1", "c2"]) := by
  refine ⟨?_, ?_, ?_, ?_, ?_⟩
  · simp [markChatVisited]
  · show ((chat.id :: st.recentChatIDs.filter (fun id => id ≠ chat.id)).take 12).count chat.id = 1
    rw [show (12 : Nat) = 11 + 1 from rfl, List.take_succ_cons, List.count_cons_self,
      List.count_eq_zero.mpr]
    intro hmem
    have h2 := List.mem_filter.mp (List.take_subset _ _ hmem)
    simp at h2
  · exact List.length_take_le _ _
  · intro b
    cases b <;> simp [markChatVisited]
  · decide

/-! ### C7: tokenization -/

/-- C7 (counterexample): `parseSearchTerms` does not remove stop words; the
stop word `"and"` survives tokenization of `"alice and bob"` (on this ASCII
input the identity instantiations of the NFD and lowercasing parameters
agree with the host functions). -/
theorem parseSearchTerms_keeps_stopword :
    "and" ∈ parseSearchTerms idNfd idLow "alice and bob" ∧ "and" ∈ STOP_WORDS := by
  decide

/-- C7 (amended): tokenization splits the normalized text on spaces and
drops empty tokens — every returned token is non-empty and space-free — but
stop words are not removed from the token list; the stop-word set is
excluded only from the required terms computed inside `search`
(`searchTerms.filter (!STOP_WORDS.has ·)` contains no stop word). -/
theorem parseSearchTerms_structure (nfd : List Char → List Char) (lowChar : Char → List Char)
    (q : String) :
    (∀ t ∈ parseSearchTerms nfd lowChar q, 0 < t.length ∧ ∀ c ∈ t.data, c ≠ spaceChar) ∧
    (∀ t ∈ (parseSearchTerms nfd lowChar q).filter (fun t => !STOP_WORDS.contains t),
      t ∉ STOP_WORDS) := by
  constructor
  · intro t ht
    unfold parseSearchTerms at ht
    rcases List.mem_map.mp ht with ⟨cs, hcs, hmk⟩
    have hfil := List.mem_filter.mp hcs
    rcases List.mem_map.mp hfil.1 with ⟨seg, hseg, htrim⟩
    constructor
    · have hlen : cs.length > 0 := by simpa using hfil.2
      rw [← hmk]
      exact hlen
    · intro c hc
      have hcd : c ∈ cs := by rw [← hmk] at hc; exact hc
      have hcseg : c ∈ trimWs seg := by rw [htrim]; exact hcd
      exact splitSpGo_no_space _ [] (by simp) seg hseg c (mem_trimWs hcseg)
  · intro t ht
    have h := (List.mem_filter.mp ht).2
    simpa using h

/-! ### C6: incremental pagination -/

/-- The chat returned on every page of the C6 counterexample endpoint. -/
def chatM : Chat := ⟨"m1", some "More", none, "single", 0, false, false, false, none, []⟩

/-- A remote page used by the C6 counterexample: it reports that more pages
are available and supplies a continuation cursor. -/
def morePage : PageResponse := ⟨[chatM], true, some "n1", some "o1", none, none⟩

/-- A remote endpoint that always answers `morePage`. -/
def morePages : Option String → Except String PageResponse := fun _ => .ok morePage

/-- C6 (counterexample): against a remote that reports `hasMore = true` on
every page, an incremental `fetchInbox` still issues exactly one page
request — pagination never continues past the first page, so the 3-page
cap is never reached. -/
theorem fetchInbox_incremental_stops_counterexample :
    morePages none = .ok morePage ∧ morePage.hasMore = true ∧
    fetchInbox idNfd idLow morePages ChatInbox.primary RefreshMode.incremental ⟨none, none⟩ =
      .ok ⟨[⟨chatM, ChatInbox.primary, buildSearchFields idNfd idLow chatM⟩],
            some "n1", some "o1", 1⟩ := by
  exact ⟨rfl, rfl, rfl⟩

/-- C6 (amended): in incremental mode `fetchInbox` fetches exactly one page
per partition — the newest page, requested with no cursor — and stops
regardless of whether the remote reports more pages available. -/
theorem fetchInbox_incremental_one_page (nfd : List Char → List Char)
    (lowChar : Char → List Char) (fp : Option String → Except String PageResponse)
    (inbox : ChatInbox) (stored : CursorPair) (resp : PageResponse)
    (h : fp none = .ok resp) :
    fetchInbox nfd lowChar fp inbox RefreshMode.incremental stored =
      .ok ⟨resp.items.map (fun chat => ⟨chat, inbox, buildSearchFields nfd lowChar chat⟩),
            if truthyS resp.newestCursor then resp.newestCursor else stored.newestCursor,
            if truthyS resp.oldestCursor then resp.oldestCursor else stored.oldestCursor,
            1⟩ := by
  show fetchInboxGo nfd lowChar fp inbox RefreshMode.incremental
      (if RefreshMode.incremental = RefreshMode.incremental then INDEX_MAX_PAGES_INCREMENTAL
        else INDEX_MAX_PAGES) true none stored.newestCursor stored.oldestCursor [] 0 = _
  rw [if_pos rfl]
  show fetchInboxGo nfd lowChar fp inbox RefreshMode.incremental (2 + 1) true none
      stored.newestCursor stored.oldestCursor [] 0 = _
  rw [fetchInboxGo, h]
  simp

/-- A remote page with no further pages, used by the C6 witness. -/
def lastPage : PageResponse :=
  ⟨[⟨"w1", some "Only", none, "group", 2, false, false, false, none, []⟩],
    false, some "nw", none, none, none⟩

/-- A remote endpoint that always answers `lastPage`. -/
def lastPages : Option String → Except String PageResponse := fun _ => .ok lastPage

/-- Witness for the amended C6 theorem at a concrete endpoint. -/
theorem fetchInbox_incremental_one_page_witness :
    fetchInbox idNfd idLow lastPages ChatInbox.archive RefreshMode.incremental ⟨none, some "keep"⟩ =
      .ok ⟨lastPage.items.map
              (fun chat => ⟨chat, ChatInbox.archive, buildSearchFields idNfd idLow chat⟩),
            if truthyS lastPage.newestCursor then lastPage.newestCursor else none,
            if truthyS lastPage.oldestCursor then lastPage.oldestCursor else some "keep",
            1⟩ :=
  fetchInbox_incremental_one_page idNfd idLow lastPages ChatInbox.archive ⟨none, some "keep"⟩
    lastPage rfl

/-! ### C8: single-flight refresh -/

/-- C8: a refresh requested while `refreshInFlight` is set returns
immediately without starting any fetch; a completed refresh always clears
the flag; and two refresh requests where the second arrives before the
first resolves start exactly one fetch sequence and leave the flag
cleared. -/
theorem refresh_single_flight (nfd : List Char → List Char) (lowChar : Char → List Char)
    (dp : String → Option Int) (env : RefreshEnv) (mode m1 m2 : RefreshMode) (st : Store) :
    (st.inFlight = true → refreshIndexCall nfd lowChar dp env mode st = (st, false)) ∧
    (st.inFlight = false → (refreshIndexCall nfd lowChar dp env mode st).1.inFlight = false) ∧
    (st.inFlight = false →
      (overlappedRefresh nfd lowChar dp env m1 m2 st).2 = 1 ∧
      (overlappedRefresh nfd lowChar dp env m1 m2 st).1.inFlight = false) := by
  refine ⟨?_, ?_, ?_⟩
  · intro h
    simp [refreshIndexCall, h]
  · intro h
    simp only [refreshIndexCall, h, Bool.false_eq_true, if_false]
    unfold completeRefresh
    split <;> rfl
  · intro h
    constructor
    · simp [overlappedRefresh, h, refreshIndexCall, markStore]
    · simp only [overlappedRefresh, h, Bool.false_eq_true, if_false]
      unfold completeRefresh
      split <;> rfl

/-- An always-failing remote endpoint environment. -/
def envBad : RefreshEnv := ⟨fun _ _ => .error "network down", 0⟩

/-- A remote page with no items and no further pages. -/
def emptyPage : PageResponse := ⟨[], false, none, none, none, none⟩

/-- An environment whose endpoint always answers `emptyPage`. -/
def envOk : RefreshEnv := ⟨fun _ _ => .ok emptyPage, 5⟩

/-- An idle store. -/
def idleStore : Store := ⟨false, false, defaultIndexState, none⟩

/-- A store with a refresh already in flight. -/
def busyStore : Store := ⟨true, true, defaultIndexState, none⟩

/-- Witness for the single-flight theorem at concrete stores. -/
theorem refresh_single_flight_witness :
    (refreshIndexCall idNfd idLow zeroDp envOk RefreshMode.full busyStore = (busyStore, false)) ∧
    ((overlappedRefresh idNfd idLow zeroDp envOk RefreshMode.full RefreshMode.incremental
        idleStore).2 = 1) ∧
    ((overlappedRefresh idNfd idLow zeroDp envOk RefreshMode.full RefreshMode.incremental
        idleStore).1.inFlight = false) :=
  ⟨(refresh_single_flight idNfd idLow zeroDp envOk RefreshMode.full RefreshMode.full
      RefreshMode.incremental busyStore).1 rfl,
    ((refresh_single_flight idNfd idLow zeroDp envOk RefreshMode.full RefreshMode.full
      RefreshMode.incremental idleStore).2.2 rfl).1,
    ((refresh_single_flight idNfd idLow zeroDp envOk RefreshMode.full RefreshMode.full
      RefreshMode.incremental idleStore).2.2 rfl).2⟩

/-! ### C2: a failed partition fetch leaves the state untouched -/

/-- If any of the three partition fetches fails, the joined fetch fails. -/
theorem refreshFetchAll_error_of_partition (nfd : List Char → List Char)
    (lowChar : Char → List Char) (env : RefreshEnv) (mode : RefreshMode)
    (base : ChatIndexState)
    (h : ∃ i e, fetchInbox nfd lowChar (env.fetchPage i) i mode (base.cursors.get i) =
      .error e) :
    ∃ e, refreshFetchAll nfd lowChar env mode base = .error e := by
  obtain ⟨i, e, hi⟩ := h
  cases hp : fetchInbox nfd lowChar (env.fetchPage ChatInbox.primary) ChatInbox.primary mode
      base.cursors.primary with
  | error ep => exact ⟨ep, by simp [refreshFetchAll, hp]⟩
  | ok p =>
    cases hl : fetchInbox nfd lowChar (env.fetchPage ChatInbox.lowPriority)
        ChatInbox.lowPriority mode base.cursors.lowPriority with
    | error el => exact ⟨el, by simp [refreshFetchAll, hp, hl]⟩
    | ok l =>
      cases ha : fetchInbox nfd lowChar (env.fetchPage ChatInbox.archive) ChatInbox.archive mode
          base.cursors.archive with
      | error ea => exact ⟨ea, by simp [refreshFetchAll, hp, hl, ha]⟩
      | ok a =>
        exfalso
        cases i with
        | primary => rw [show base.cursors.get ChatInbox.primary = base.cursors.primary from rfl,
            hp] at hi; exact Except.noConfusion hi
        | lowPriority => rw [show base.cursors.get ChatInbox.lowPriority =
            base.cursors.lowPriority from rfl, hl] at hi; exact Except.noConfusion hi
        | archive => rw [show base.cursors.get ChatInbox.archive = base.cursors.archive from rfl,
            ha] at hi; exact Except.noConfusion hi

/-- C2: if the fetch of any one of the three partitions fails, the refresh
leaves the persisted/in-memory `ChatIndexState` exactly as it was (no items
merged, no cursors updated, `updatedAt` unchanged, nothing persisted) and
surfaces an error to the caller. -/
theorem refresh_failure_keeps_state (nfd : List Char → List Char)
    (lowChar : Char → List Char) (dp : String → Option Int) (env : RefreshEnv)
    (mode : RefreshMode) (st : Store) (hfl : st.inFlight = false)
    (hfail : ∃ i e, fetchInbox nfd lowChar (env.fetchPage i) i mode
      ((baseState mode st).cursors.get i) = .error e) :
    (refreshIndexCall nfd lowChar dp env mode st).1.index = st.index ∧
    ∃ e, (refreshIndexCall nfd lowChar dp env mode st).1.error = some e := by
  have hbase : baseState mode (markStore st) = baseState mode st := rfl
  obtain ⟨e, hall⟩ := refreshFetchAll_error_of_partition nfd lowChar env mode
    (baseState mode st) hfail
  simp only [refreshIndexCall, hfl, Bool.false_eq_true, if_false]
  rw [show completeRefresh nfd lowChar dp env mode (baseState mode (markStore st)) (markStore st) =
      completeRefresh nfd lowChar dp env mode (baseState mode st) (markStore st) from by rw [hbase]]
  simp [completeRefresh, hall, markStore]

/-- Witness for the failure theorem against the always-failing endpoint. -/
theorem refresh_failure_keeps_state_witness :
    (refreshIndexCall idNfd idLow zeroDp envBad RefreshMode.incremental idleStore).1.index =
      idleStore.index ∧
    ∃ e, (refreshIndexCall idNfd idLow zeroDp envBad RefreshMode.incremental
      idleStore).1.error = some e :=
  refresh_failure_keeps_state idNfd idLow zeroDp envBad RefreshMode.incremental idleStore rfl
    ⟨ChatInbox.primary, "network down", rfl⟩

/-! ### C3: cache bound and truncation order -/

/-- C3: after a successful refresh the cache holds at most
`MAX_INDEXD_CHATS_TARGET` items — precisely the first 20000 of the merged
item set sorted by last-activity descending — and every item dropped by the
truncation has a last-activity timestamp older than or equal to that of
every retained item. -/
theorem refresh_success_truncates (nfd : List Char → List Char)
    (lowChar : Char → List Char) (dp : String → Option Int) (env : RefreshEnv)
    (mode : RefreshMode) (st : Store) (results : FetchOut × FetchOut × FetchOut)
    (hfl : st.inFlight = false)
    (hok : refreshFetchAll nfd lowChar env mode (baseState mode st) = .ok results) :
    ((refreshIndexCall nfd lowChar dp env mode st).1.index.items.length ≤
      MAX_INDEXD_CHATS_TARGET) ∧
    ((refreshIndexCall nfd lowChar dp env mode st).1.index.items =
      (sortIndexedChatsByActivity dp
        (refreshMergedItems (baseState mode st) results)).take MAX_INDEXD_CHATS_TARGET) ∧
    (∀ d ∈ (sortIndexedChatsByActivity dp
        (refreshMergedItems (baseState mode st) results)).drop MAX_INDEXD_CHATS_TARGET,
      ∀ r ∈ (refreshIndexCall nfd lowChar dp env mode st).1.index.items,
        getChatTimestamp dp d.chat ≤ getChatTimestamp dp r.chat) := by
  have hbase : baseState mode (markStore st) = baseState mode st := rfl
  have heq : (refreshIndexCall nfd lowChar dp env mode st).1.index.items =
      (sortIndexedChatsByActivity dp
        (refreshMergedItems (baseState mode st) results)).take MAX_INDEXD_CHATS_TARGET := by
    simp only [refreshIndexCall, hfl, Bool.false_eq_true, if_false]
    rw [show completeRefresh nfd lowChar dp env mode (baseState mode (markStore st))
        (markStore st) =
        completeRefresh nfd lowChar dp env mode (baseState mode st) (markStore st) from by
      rw [hbase]]
    simp [completeRefresh, hok, refreshSuccessState]
  refine ⟨?_, heq, ?_⟩
  · rw [heq]
    exact List.length_take_le _ _
  · intro d hd r hr
    rw [heq] at hr
    letI : IsTotal IndexedChat
        (fun a b => getChatTimestamp dp b.chat ≤ getChatTimestamp dp a.chat) :=
      ⟨fun a b => le_total (getChatTimestamp dp b.chat) (getChatTimestamp dp a.chat)⟩
    letI : IsTrans IndexedChat
        (fun a b => getChatTimestamp dp b.chat ≤ getChatTimestamp dp a.chat) :=
      ⟨fun _ _ _ hab hbc => le_trans hbc hab⟩
    have hsorted := List.sorted_insertionSort
      (fun a b : IndexedChat => getChatTimestamp dp b.chat ≤ getChatTimestamp dp a.chat)
      (refreshMergedItems (baseState mode st) results)
    have hpw : List.Pairwise
        (fun a b : IndexedChat => getChatTimestamp dp b.chat ≤ getChatTimestamp dp a.chat)
        (sortIndexedChatsByActivity dp (refreshMergedItems (baseState mode st) results)) :=
      hsorted
    rw [← List.take_append_drop MAX_INDEXD_CHATS_TARGET
      (sortIndexedChatsByActivity dp (refreshMergedItems (baseState mode st) results))] at hpw
    exact (List.pairwise_append.mp hpw).2.2 r hr d hd

/-- Witness for the truncation theorem against the empty-page endpoint. -/
theorem refresh_success_truncates_witness :
    ((refreshIndexCall idNfd idLow zeroDp envOk RefreshMode.full idleStore).1.index.items.length ≤
      MAX_INDEXD_CHATS_TARGET) ∧
    ((refreshIndexCall idNfd idLow zeroDp envOk RefreshMode.full idleStore).1.index.items =
      (sortIndexedChatsByActivity zeroDp
        (refreshMergedItems (baseState RefreshMode.full idleStore)
          (⟨[], none, none, 1⟩, ⟨[], none, none, 1⟩, ⟨[], none, none, 1⟩))).take
        MAX_INDEXD_CHATS_TARGET) ∧
    (∀ d ∈ (sortIndexedChatsByActivity zeroDp
        (refreshMergedItems (baseState RefreshMode.full idleStore)
          (⟨[], none, none, 1⟩, ⟨[], none, none, 1⟩, ⟨[], none, none, 1⟩))).drop
        MAX_INDEXD_CHATS_TARGET,
      ∀ r ∈ (refreshIndexCall idNfd idLow zeroDp envOk RefreshMode.full idleStore).1.index.items,
        getChatTimestamp zeroDp d.chat ≤ getChatTimestamp zeroDp r.chat) :=
  refresh_success_truncates idNfd idLow zeroDp envOk RefreshMode.full idleStore
    (⟨[], none, none, 1⟩, ⟨[], none, none, 1⟩, ⟨[], none, none, 1⟩) rfl rfl

/-! ### C5: the rendered sections do not cover the ranked list -/

/-- The chat of the C5 failing input: title `"bob"`, not pinned, nothing
unread. -/
def bobChat : Chat := ⟨"c1", some "bob", none, "single", 0, false, false, false, none, []⟩

/-- A cached index holding only `bobChat` in the primary partition. -/
def bobItems : List IndexedChat :=
  [⟨bobChat, ChatInbox.primary, buildSearchFields idNfd idLow bobChat⟩]

/-- Filters that pass everything. -/
def allFilters : ChatFilters := ⟨InboxFilter.all, "any", false, true⟩

/-- C5 (code bug, evaluated at the failing input): with smart sections
enabled and the non-empty query `"bob"`, the ranked list produced by the
`chats` memo is exactly `[bobChat]`, yet — because `bobChat.id` is in the
persisted recent list — the rendered sections are all empty: the chat is
excluded from the Other section although the Recent and Frequently Used
sections are not rendered while a query is active, so a conversation of the
ranked list appears in no section at all. -/
theorem sections_omit_recent_result_on_search :
    chatsList idNfd idLow eqFz zeroDp bobItems allFilters "bob" 0 = [bobChat] ∧
    renderedChats true false (jsTrim "bob")
      (chatsList idNfd idLow eqFz zeroDp bobItems allFilters "bob" 0) ["c1"]
      (chatsList idNfd idLow eqFz zeroDp bobItems allFilters "bob" 0) = [] := by
  exact ⟨rfl, rfl⟩

/-! ### C1: conjunctive token matching -/

/-- Fold invariant preservation. -/
theorem foldl_inv {α β : Type _} (P : β → Prop) (f : β → α → β) :
    ∀ (l : List α) (b : β), P b → (∀ b' a, a ∈ l → P b' → P (f b' a)) → P (l.foldl f b) := by
  intro l
  induction l with
  | nil => intro b hb _; exact hb
  | cons a l ih =>
    intro b hb hf
    exact ih (f b a) (hf b a (by simp) hb) (fun b' x hx => hf b' x (by simp [hx]))

/-- Evidence that term `t` matched the conversation `id` on one of the
requested properties of one of the indexed items. -/
def termEvidence (fz : String → String → Option ℚ) (collection : List SearchIndexItem)
    (props : List SearchProperty) (id t : String) : Prop :=
  ∃ item ∈ collection, item.id = id ∧
    ∃ p ∈ props, fuzzyScore fz (propertyValues item.searchFields p) t ≠ none

/-- `push` keeps the id. -/
theorem push_id (m : SearchableMatch) (p : SearchProperty) (s : ℚ) : (m.push p s).id = m.id := by
  cases p <;> rfl

/-- `push` keeps the matched-term set. -/
theorem push_matched (m : SearchableMatch) (p : SearchProperty) (s : ℚ) :
    (m.push p s).matchedSearchTerms = m.matchedSearchTerms := by
  cases p <;> rfl

/-- `addTerm` keeps the id. -/
theorem addTerm_id (m : SearchableMatch) (t : String) : (m.addTerm t).id = m.id := by
  unfold SearchableMatch.addTerm
  split <;> rfl

/-- Terms after `addTerm` were already there or are the added one. -/
theorem addTerm_matched_sub {m : SearchableMatch} {t t' : String}
    (h : t' ∈ (m.addTerm t).matchedSearchTerms) : t' ∈ m.matchedSearchTerms ∨ t' = t := by
  unfold SearchableMatch.addTerm at h
  split at h
  · exact Or.inl h
  · rcases List.mem_append.mp h with h1 | h1
    · exact Or.inl h1
    · exact Or.inr (List.mem_singleton.mp h1)

/-- Every matched term of an entry of `addResult acc id p s t` either comes
from an entry of `acc` with the same id, or is the added pair. -/
theorem addResult_terms (acc : List SearchableMatch) (id : String) (p : SearchProperty)
    (s : ℚ) (t : String) :
    ∀ m' ∈ addResult acc id p s t, ∀ t' ∈ m'.matchedSearchTerms,
      (∃ m ∈ acc, m.id = m'.id ∧ t' ∈ m.matchedSearchTerms) ∨ (m'.id = id ∧ t' = t) := by
  intro m' hm' t' ht'
  unfold addResult at hm'
  split at hm'
  · rcases List.mem_map.mp hm' with ⟨m, hm, hmap⟩
    by_cases hid : m.id = id
    · rw [if_pos hid] at hmap
      subst hmap
      rcases addTerm_matched_sub ht' with h1 | h1
      · rw [push_matched] at h1
        exact Or.inl ⟨m, hm, by rw [addTerm_id, push_id], h1⟩
      · exact Or.inr ⟨by rw [addTerm_id, push_id, hid], h1⟩
    · rw [if_neg hid] at hmap
      subst hmap
      exact Or.inl ⟨m, hm, rfl, ht'⟩
  · rcases List.mem_append.mp hm' with h1 | h1
    · exact Or.inl ⟨m', h1, rfl, ht'⟩
    · have h2 := List.mem_singleton.mp h1
      subst h2
      rcases addTerm_matched_sub ht' with h3 | h3
      · rw [push_matched] at h3
        exact absurd h3 (List.not_mem_nil t')
      · exact Or.inr ⟨by rw [addTerm_id, push_id], h3⟩

/-- Every matched term recorded by the accumulation loop is backed by a
Fuse match on one of the requested properties. -/
theorem searchAccum_evidence (fz : String → String → Option ℚ)
    (collection : List SearchIndexItem) (searchTerms : List String)
    (props : List SearchProperty) :
    ∀ m ∈ searchAccum fz collection searchTerms props, ∀ t ∈ m.matchedSearchTerms,
      termEvidence fz collection props m.id t := by
  unfold searchAccum
  refine foldl_inv
    (fun acc : List SearchableMatch =>
      ∀ m ∈ acc, ∀ t ∈ m.matchedSearchTerms, termEvidence fz collection props m.id t)
    _ searchTerms [] (by simp) ?_
  intro acc term _ hacc
  refine foldl_inv
    (fun acc : List SearchableMatch =>
      ∀ m ∈ acc, ∀ t ∈ m.matchedSearchTerms, termEvidence fz collection props m.id t)
    _ props acc hacc ?_
  intro acc' p hp hacc'
  refine foldl_inv
    (fun acc : List SearchableMatch =>
      ∀ m ∈ acc, ∀ t ∈ m.matchedSearchTerms, termEvidence fz collection props m.id t)
    _ (fuseSearchProp fz collection p term) acc' hacc' ?_
  intro acc'' pr hpr hacc'' m' hm' t' ht'
  rcases addResult_terms acc'' pr.1.id p pr.2 term m' hm' t' ht' with ⟨m, hm, hid, htm⟩ | ⟨hid, ht⟩
  · have := hacc'' m hm t' htm
    rwa [hid] at this
  · rcases List.mem_filterMap.mp hpr with ⟨item, hitem, hmap⟩
    rcases Option.map_eq_some'.mp hmap with ⟨sc, hsc, hpair⟩
    refine ⟨item, hitem, ?_, p, hp, ?_⟩
    · rw [hid, ← hpair]
    · rw [ht, hsc]
      exact Option.some_ne_none sc

/-- C1: the search includes a conversation in its result set only if every
non-stop-word token of the tokenized query produced at least one match for
that conversation on at least one of the requested properties. -/
theorem search_conjunctive (nfd : List Char → List Char) (lowChar : Char → List Char)
    (fz : String → String → Option ℚ) (collection : List SearchIndexItem) (q : String)
    (props : List SearchProperty) (r : SearchIndexResult)
    (hr : r ∈ threadSearch nfd lowChar fz collection q props) (t : String)
    (ht : t ∈ parseSearchTerms nfd lowChar q) (hstop : t ∉ STOP_WORDS) :
    ∃ item ∈ collection, item.id = r.id ∧
      ∃ p ∈ props, fuzzyScore fz (propertyValues item.searchFields p) t ≠ none := by
  unfold threadSearch at hr
  by_cases hq : jsTrim q = ""
  · rw [if_pos hq] at hr
    exact absurd hr (List.not_mem_nil r)
  · rw [if_neg hq] at hr
    simp only [List.mem_map, List.mem_filter] at hr
    rcases hr with ⟨m, ⟨hm, hcond⟩, hgm⟩
    have htreq : t ∈ (parseSearchTerms nfd lowChar q).filter
        (fun t => !STOP_WORDS.contains t) :=
      List.mem_filter.mpr ⟨ht, by simpa using hstop⟩
    have hlen : 0 < ((parseSearchTerms nfd lowChar q).filter
        (fun t => !STOP_WORDS.contains t)).length :=
      List.length_pos.mpr (List.ne_nil_of_mem htreq)
    have hall : ((parseSearchTerms nfd lowChar q).filter
        (fun t => !STOP_WORDS.contains t)).all
        (fun t => m.matchedSearchTerms.contains t) = true := by
      have hcond' : ((!(decide (0 < ((parseSearchTerms nfd lowChar q).filter
          (fun t => !STOP_WORDS.contains t)).length) &&
          !((parseSearchTerms nfd lowChar q).filter (fun t => !STOP_WORDS.contains t)).all
            (fun t => m.matchedSearchTerms.contains t)))) = true := hcond
      rw [Bool.not_eq_true'] at hcond'
      rcases Bool.and_eq_false_iff.mp hcond' with h1 | h1
      · exact absurd hlen (of_decide_eq_false h1)
      · rw [Bool.not_eq_false'] at h1
        exact h1
    have htm : t ∈ m.matchedSearchTerms := by
      have := List.all_eq_true.mp hall t htreq
      simpa using this
    have hev := searchAccum_evidence fz collection (parseSearchTerms nfd lowChar q) props m hm
      t htm
    have hid : r.id = m.id := by rw [← hgm]
    rwa [hid]

/-- The indexed item of the C1 witness. -/
def aliceItem : SearchIndexItem := ⟨"c-1", ⟨"alice", "", ["bob"]⟩⟩

/-- The search result the C1 witness works on. -/
def aliceResult : SearchIndexResult :=
  ⟨"c-1", ⟨⟨0, 1⟩, ⟨MAX_SAFE_INTEGER, 0⟩, ⟨0, 1⟩⟩, ["alice", "bob"]⟩

/-- Witness for the conjunctive-matching theorem at a concrete collection
and the query `"alice bob"`. -/
theorem search_conjunctive_witness :
    ∃ item ∈ [aliceItem], item.id = aliceResult.id ∧
      ∃ p ∈ [SearchProperty.title, SearchProperty.network, SearchProperty.participants],
        fuzzyScore eqFz (propertyValues item.searchFields p) "alice" ≠ none :=
  search_conjunctive idNfd idLow eqFz [aliceItem] "alice bob"
    [SearchProperty.title, SearchProperty.network, SearchProperty.participants] aliceResult
    (by decide) "alice" (by decide) (by decide)

/-! ### C4: the ranking order -/

/-- A boolean comparator tier: the `-1/1` branch fires on unequal flags. -/
theorem tier_bool (x y : Bool) (rest : ℚ) (restSpec : Prop) (h : rest < 0 ↔ restSpec) :
    ((if x ≠ y then (if x then (-1 : ℚ) else 1) else rest) < 0) ↔
      ((x = true ∧ y = false) ∨ (x = y ∧ restSpec)) := by
  cases x <;> cases y <;> simp [h]

/-- A descending natural-number tier. -/
theorem tier_nat (x y : Nat) (rest : ℚ) (restSpec : Prop) (h : rest < 0 ↔ restSpec) :
    ((if x ≠ y then ((y : ℚ) - (x : ℚ)) else rest) < 0) ↔ (y < x ∨ (x = y ∧ restSpec)) := by
  by_cases hxy : x = y
  · simp [hxy, h]
  · have hq : ((y : ℚ) - (x : ℚ) < 0) ↔ (y < x) := by
      rw [sub_neg]
      exact_mod_cast Iff.rfl
    simp [hxy, hq]

/-- A descending rational tier. -/
theorem tier_rat (x y : ℚ) (rest : ℚ) (restSpec : Prop) (h : rest < 0 ↔ restSpec) :
    ((if x ≠ y then (y - x) else rest) < 0) ↔ (y < x ∨ (x = y ∧ restSpec)) := by
  by_cases hxy : x = y
  · simp [hxy, h]
  · simp [hxy, sub_neg]

/-- C4: with an empty token list the `chats` memo skips scoring entirely
and returns the filtered set sorted purely by last-activity descending;
with a non-empty query, the comparator orders two scored candidates by the
tier sequence of `rankBefore` (exact title, prefix title, recency boost,
title hits, participant hits, single before group, network hits, timestamp
descending). -/
theorem ranking_order (nfd : List Char → List Char) (lowChar : Char → List Char)
    (fz : String → String → Option ℚ) (dp : String → Option Int)
    (items : List IndexedChat) (filters : ChatFilters) (searchText : String) (now : Int)
    (a b : ScoredChat) :
    (parseSearchTerms nfd lowChar (jsTrim searchText) = [] →
      chatsList nfd lowChar fz dp items filters searchText now =
        sortChatsByActivity dp
          ((items.filter (passesFilters filters)).map (fun item => item.chat))) ∧
    (rankCmp now a b < 0 ↔ rankBefore now a b) := by
  constructor
  · intro h
    simp [chatsList, h]
  · unfold rankCmp rankBefore
    exact tier_bool _ _ _ _ (tier_bool _ _ _ _ (tier_rat _ _ _ _ (tier_nat _ _ _ _
      (tier_nat _ _ _ _ (tier_bool _ _ _ _ (tier_nat _ _ _ _
        (by rw [sub_neg]; exact Int.cast_lt)))))))

/-- Scored candidates for the C4 witness. -/
def demoScoredA : ScoredChat := ⟨bobChat, true, true, 1, 0, 0, true, 10⟩

/-- Scored candidates for the C4 witness. -/
def demoScoredB : ScoredChat := ⟨chatM, false, false, 0, 0, 0, false, 5⟩

/-- Witness for the ranking theorem: empty query at a concrete cache, and
the comparator equivalence at two concrete candidates. -/
theorem ranking_order_witness :
    (chatsList idNfd idLow eqFz zeroDp bobItems allFilters "" 0 =
      sortChatsByActivity zeroDp
        ((bobItems.filter (passesFilters allFilters)).map (fun item => item.chat))) ∧
    (rankCmp 0 demoScoredA demoScoredB < 0 ↔ rankBefore 0 demoScoredA demoScoredB) :=
  ⟨(ranking_order idNfd idLow eqFz zeroDp bobItems allFilters "" 0 demoScoredA
      demoScoredB).1 rfl,
    (ranking_order idNfd idLow eqFz zeroDp bobItems allFilters "" 0 demoScoredA
      demoScoredB).2⟩

/-- Witness for the tokenization-structure theorem at the query
`"alice bob"`. -/
theorem parseSearchTerms_structure_witness :
    (0 < "alice".length ∧ ∀ c ∈ "alice".data, c ≠ spaceChar) ∧ "bob" ∉ STOP_WORDS :=
  ⟨(parseSearchTerms_structure idNfd idLow "alice bob").1 "alice" (by decide),
    (parseSearchTerms_structure idNfd idLow "alice bob").2 "bob" (by decide)⟩

/-! ### C10: the normalizer is idempotent

The Unicode-dependent stages are parameters; the theorem assumes the facts
that hold of the host implementations — NFD fixes the pipeline's output
(which is canonically decomposed and ordered), lowercasing produces
lowercase-stable characters, lowercasing an NFD-decomposed, mark-stripped
text introduces no combining marks of the stripped block, and the space
character lowercases to itself. -/

/-- No two adjacent whitespace characters. -/
def NoWsPair : Char → Char → Prop := fun a b => ¬(wsChar a = true ∧ wsChar b = true)

/-- Characters surviving the whitespace collapse are non-whitespace input
characters, or the space it emits. -/
theorem collapseGo_mem :
    ∀ (l : List Char) (b : Bool) (a : Char),
      a ∈ collapseGo b l → (a ∈ l ∧ wsChar a = false) ∨ a = spaceChar := by
  intro l
  induction l with
  | nil =>
    intro b a h
    simp [collapseGo] at h
  | cons c cs ih =>
    intro b a h
    by_cases hc : wsChar c = true
    · cases b with
      | true =>
        rw [show collapseGo true (c :: cs) = collapseGo true cs by
          simp [collapseGo, hc]] at h
        rcases ih true a h with ⟨h1, h2⟩ | h1
        · exact Or.inl ⟨List.mem_cons_of_mem c h1, h2⟩
        · exact Or.inr h1
      | false =>
        rw [show collapseGo false (c :: cs) = spaceChar :: collapseGo true cs by
          simp [collapseGo, hc]] at h
        rcases List.mem_cons.mp h with h1 | h1
        · exact Or.inr h1
        · rcases ih true a h1 with ⟨h2, h3⟩ | h2
          · exact Or.inl ⟨List.mem_cons_of_mem c h2, h3⟩
          · exact Or.inr h2
    · have hcf : wsChar c = false := by simpa using hc
      rw [show collapseGo b (c :: cs) = c :: collapseGo false cs by
        simp [collapseGo, hcf]] at h
      rcases List.mem_cons.mp h with h1 | h1
      · exact Or.inl ⟨h1 ▸ List.mem_cons_self c cs, h1 ▸ hcf⟩
      · rcases ih false a h1 with ⟨h2, h3⟩ | h2
        · exact Or.inl ⟨List.mem_cons_of_mem c h2, h3⟩
        · exact Or.inr h2

/-- After a whitespace run, the collapse emits a non-whitespace head. -/
theorem collapseGo_head_true :
    ∀ (l : List Char) (a : Char), (collapseGo true l).head? = some a → wsChar a = false := by
  intro l
  induction l with
  | nil =>
    intro a h
    simp [collapseGo] at h
  | cons c cs ih =>
    intro a h
    by_cases hc : wsChar c = true
    · rw [show collapseGo true (c :: cs) = collapseGo true cs by simp [collapseGo, hc]] at h
      exact ih a h
    · have hcf : wsChar c = false := by simpa using hc
      rw [show collapseGo true (c :: cs) = c :: collapseGo false cs by
        simp [collapseGo, hcf]] at h
      have hca : c = a := by simpa using h
      exact hca ▸ hcf

/-- The collapsed list has no two adjacent whitespace characters. -/
theorem collapseGo_chain :
    ∀ (l : List Char) (b : Bool), List.Chain' NoWsPair (collapseGo b l) := by
  intro l
  induction l with
  | nil =>
    intro b
    simp [collapseGo]
  | cons c cs ih =>
    intro b
    by_cases hc : wsChar c = true
    · cases b with
      | true =>
        rw [show collapseGo true (c :: cs) = collapseGo true cs by simp [collapseGo, hc]]
        exact ih true
      | false =>
        rw [show collapseGo false (c :: cs) = spaceChar :: collapseGo true cs by
          simp [collapseGo, hc]]
        refine List.chain'_cons'.mpr ⟨?_, ih true⟩
        intro d hd
        intro hpair
        rw [collapseGo_head_true cs d hd] at hpair
        exact Bool.false_ne_true hpair.2
    · have hcf : wsChar c = false := by simpa using hc
      rw [show collapseGo b (c :: cs) = c :: collapseGo false cs by simp [collapseGo, hcf]]
      refine List.chain'_cons'.mpr ⟨?_, ih false⟩
      intro d _ hpair
      rw [hcf] at hpair
      exact Bool.false_ne_true hpair.1

/-- A list whose whitespace is single interior spaces is a fixed point of
the collapse. -/
theorem collapseGo_fix :
    ∀ l : List Char, (∀ a ∈ l, wsChar a = true → a = spaceChar) → List.Chain' NoWsPair l →
      collapseGo false l = l ∧
        ((∀ a, l.head? = some a → wsChar a = false) → collapseGo true l = l) := by
  intro l
  induction l with
  | nil => exact fun _ _ => ⟨rfl, fun _ => rfl⟩
  | cons c cs ih =>
    intro hall hchain
    obtain ⟨hR, hchain'⟩ := List.chain'_cons'.mp hchain
    have ihcs := ih (fun a ha hw => hall a (List.mem_cons_of_mem c ha) hw) hchain'
    by_cases hc : wsChar c = true
    · have hcsp : c = spaceChar := hall c (List.mem_cons_self c cs) hc
      have hhead : ∀ a, cs.head? = some a → wsChar a = false := by
        intro a ha
        by_contra hcontra
        exact hR a ha ⟨hc, by simpa using hcontra⟩
      constructor
      · rw [show collapseGo false (c :: cs) = spaceChar :: collapseGo true cs by
          simp [collapseGo, hc]]
        rw [ihcs.2 hhead, hcsp]
      · intro hh
        exact absurd (hh c rfl) (by simp [hc])
    · have hcf : wsChar c = false := by simpa using hc
      constructor
      · rw [show collapseGo false (c :: cs) = c :: collapseGo false cs by
          simp [collapseGo, hcf]]
        rw [ihcs.1]
      · intro _
        rw [show collapseGo true (c :: cs) = c :: collapseGo false cs by
          simp [collapseGo, hcf]]
        rw [ihcs.1]

/-- `dropWhile` is the identity when the head fails the test. -/
theorem dropWhile_eq_self_of_head (p : Char → Bool) (l : List Char)
    (h : ∀ a, l.head? = some a → p a = false) : l.dropWhile p = l := by
  cases l with
  | nil => rfl
  | cons c cs =>
    rw [List.dropWhile_cons, h c rfl]
    simp

/-- `trimWs` yields a prefix of the left-trimmed list. -/
theorem trimWs_prefix (l : List Char) :
    trimWs l <+: l.dropWhile (fun c => wsChar c) := by
  unfold trimWs
  have h2 : (l.dropWhile (fun c => wsChar c)).reverse.dropWhile (fun c => wsChar c) <:+
      (l.dropWhile (fun c => wsChar c)).reverse := List.dropWhile_suffix _
  have h3 := List.reverse_prefix.mpr h2
  rwa [List.reverse_reverse] at h3

/-- The head of a trimmed list is not whitespace. -/
theorem trimWs_head_not_ws {l : List Char} {a : Char} (h : (trimWs l).head? = some a) :
    wsChar a = false := by
  obtain ⟨t, ht⟩ := trimWs_prefix l
  have hh : (l.dropWhile (fun c => wsChar c)).head? = some a := by
    rw [← ht]
    cases hcase : trimWs l with
    | nil => rw [hcase] at h; exact absurd h (by simp)
    | cons x xs =>
      rw [hcase] at h
      simpa using h
  have h2 := List.head?_dropWhile_not (fun c => wsChar c) l
  rw [hh] at h2
  exact h2

/-- The last character of a trimmed list is not whitespace. -/
theorem trimWs_last_not_ws {l : List Char} {a : Char} (h : (trimWs l).getLast? = some a) :
    wsChar a = false := by
  unfold trimWs at h
  rw [List.getLast?_reverse] at h
  have h2 := List.head?_dropWhile_not (fun c => wsChar c)
    (l.dropWhile (fun c => wsChar c)).reverse
  rw [h] at h2
  exact h2

/-- A list with non-whitespace ends is a fixed point of `trimWs`. -/
theorem trimWs_fix (l : List Char) (hh : ∀ a, l.head? = some a → wsChar a = false)
    (hl : ∀ a, l.getLast? = some a → wsChar a = false) : trimWs l = l := by
  unfold trimWs
  rw [dropWhile_eq_self_of_head _ l hh]
  rw [dropWhile_eq_self_of_head _ l.reverse
    (fun a ha => hl a (by rwa [← List.head?_reverse]))]
  exact List.reverse_reverse l

/-- The whitespace-collapse-and-trim tail of the normalizer is idempotent. -/
theorem normTail_fix (w : List Char) :
    collapseWs (trimWs (collapseWs w)) = trimWs (collapseWs w) ∧
      trimWs (trimWs (collapseWs w)) = trimWs (collapseWs w) := by
  have hallws : ∀ a ∈ trimWs (collapseWs w), wsChar a = true → a = spaceChar := by
    intro a ha hw
    rcases collapseGo_mem w false a (mem_trimWs ha) with ⟨_, hfalse⟩ | hspace
    · rw [hw] at hfalse
      exact absurd hfalse (by simp)
    · exact hspace
  have hchain : List.Chain' NoWsPair (trimWs (collapseWs w)) :=
    List.Chain'.infix (collapseGo_chain w false) (trimWs_contiguous _)
  exact ⟨(collapseGo_fix (trimWs (collapseWs w)) hallws hchain).1,
    trimWs_fix (trimWs (collapseWs w)) (fun a ha => trimWs_head_not_ws ha)
      (fun a ha => trimWs_last_not_ws ha)⟩

/-- The space character is in neither punctuation class nor the combining
block. -/
theorem space_not_special :
    punct1 spaceChar = false ∧ punct2 spaceChar = false ∧ combiningMark spaceChar = false := by
  decide

/-- The two punctuation replacements turn a character into the space or
leave it. -/
theorem replOut (d : Char) : repl2 (repl1 d) = spaceChar ∨ repl2 (repl1 d) = d := by
  unfold repl1 repl2
  by_cases h1 : punct1 d = true
  · simp [h1, space_not_special.1, space_not_special.2.1]
  · by_cases h2 : punct2 d = true
    · simp [h1, h2]
    · simp [h1, h2]

/-- `repl1` is idempotent. -/
theorem repl1_idem (c : Char) : repl1 (repl1 c) = repl1 c := by
  unfold repl1
  by_cases h : punct1 c = true
  · simp [h, space_not_special.1]
  · simp [h]

/-- `repl2` is idempotent. -/
theorem repl2_idem (c : Char) : repl2 (repl2 c) = repl2 c := by
  unfold repl2
  by_cases h : punct2 c = true
  · simp [h, space_not_special.2.1]
  · simp [h]

/-- `repl1` fixes the output of the replacement pipeline. -/
theorem repl1_of_out (d : Char) : repl1 (repl2 (repl1 d)) = repl2 (repl1 d) := by
  by_cases h : punct2 (repl1 d) = true
  · rw [show repl2 (repl1 d) = spaceChar from by unfold repl2; simp [h]]
    unfold repl1
    simp [space_not_special.1]
  · rw [show repl2 (repl1 d) = repl1 d from by unfold repl2; simp [h]]
    exact repl1_idem d

/-- Flattening the lowercase expansion of lowercase-stable characters is
the identity. -/
theorem flatten_map_fix (low : Char → List Char) (l : List Char)
    (h : ∀ c ∈ l, low c = [c]) : (l.map low).flatten = l := by
  induction l with
  | nil => rfl
  | cons c cs ih =>
    simp only [List.map_cons, List.flatten_cons, h c (List.mem_cons_self c cs)]
    rw [ih (fun d hd => h d (List.mem_cons_of_mem c hd))]
    rfl

/-- Mapping a function that fixes every member is the identity. -/
theorem map_fix (f : Char → Char) (l : List Char) (h : ∀ a ∈ l, f a = a) : l.map f = l := by
  induction l with
  | nil => rfl
  | cons c cs ih =>
    rw [List.map_cons, h c (List.mem_cons_self c cs), ih (fun d hd => h d
      (List.mem_cons_of_mem c hd))]

/-- C10: the normalizer is idempotent — under the Unicode facts that NFD
fixes the normalizer's output, lowercase output characters are
lowercase-stable, lowercasing after NFD and mark-stripping introduces no
combining mark of the stripped block, and the space is lowercase-stable,
`normalize (normalize x) = normalize x` for every string `x`. -/
theorem normalize_idempotent (nfd : List Char → List Char) (lowChar : Char → List Char)
    (hnfd : ∀ l : List Char, nfd (normChars nfd lowChar l) = normChars nfd lowChar l)
    (hlow : ∀ c d : Char, d ∈ lowChar c → lowChar d = [d])
    (hstrip : ∀ l : List Char,
      stripMarks ((stripMarks (nfd l)).map lowChar).flatten =
        ((stripMarks (nfd l)).map lowChar).flatten)
    (hsp : lowChar spaceChar = [spaceChar]) (s : String) :
    normalizeSearchValue nfd lowChar (normalizeSearchValue nfd lowChar s) =
      normalizeSearchValue nfd lowChar s := by
  show String.mk (normChars nfd lowChar (normChars nfd lowChar s.data)) =
    String.mk (normChars nfd lowChar s.data)
  congr 1
  have hmemy : ∀ a ∈ normChars nfd lowChar s.data,
      a = spaceChar ∨ (a ∈ ((stripMarks (nfd s.data)).map lowChar).flatten ∧
        repl1 a = a ∧ repl2 a = a) := by
    intro a ha
    have h1 := mem_trimWs ha
    rcases collapseGo_mem _ false a h1 with ⟨haw, _⟩ | hsp'
    · rcases List.mem_map.mp haw with ⟨b, hb, hb2⟩
      rcases List.mem_map.mp hb with ⟨d, hd, hd2⟩
      rcases replOut d with hcase | hcase
      · left
        rw [← hb2, ← hd2]
        exact hcase
      · right
        have had : a = d := by rw [← hb2, ← hd2]; exact hcase
        refine ⟨had ▸ hd, ?_, ?_⟩
        · rw [← hb2, ← hd2]
          exact repl1_of_out d
        · rw [← hb2, ← hd2]
          exact repl2_idem (repl1 d)
    · exact Or.inl hsp'
  have hznomark : ∀ c ∈ ((stripMarks (nfd s.data)).map lowChar).flatten,
      combiningMark c = false := by
    intro c hc
    rw [← hstrip s.data] at hc
    have := (List.mem_filter.mp hc).2
    simpa using this
  have hzlow : ∀ c ∈ ((stripMarks (nfd s.data)).map lowChar).flatten, lowChar c = [c] := by
    intro c hc
    rcases List.mem_flatten.mp hc with ⟨lc, hlc, hcin⟩
    rcases List.mem_map.mp hlc with ⟨e, _, hle⟩
    exact hlow e c (hle ▸ hcin)
  have hynomark : ∀ a ∈ normChars nfd lowChar s.data, (!combiningMark a) = true := by
    intro a ha
    rcases hmemy a ha with h | ⟨hz, _, _⟩
    · rw [h]
      simp [space_not_special.2.2]
    · simp [hznomark a hz]
  have hylow : ∀ a ∈ normChars nfd lowChar s.data, lowChar a = [a] := by
    intro a ha
    rcases hmemy a ha with h | ⟨hz, _, _⟩
    · rw [h]; exact hsp
    · exact hzlow a hz
  have hyrepl1 : ∀ a ∈ normChars nfd lowChar s.data, repl1 a = a := by
    intro a ha
    rcases hmemy a ha with h | ⟨_, h1, _⟩
    · rw [h]
      unfold repl1
      simp [space_not_special.1]
    · exact h1
  have hyrepl2 : ∀ a ∈ normChars nfd lowChar s.data, repl2 a = a := by
    intro a ha
    rcases hmemy a ha with h | ⟨_, _, h2⟩
    · rw [h]
      unfold repl2
      simp [space_not_special.2.1]
    · exact h2
  show trimWs (collapseWs ((((stripMarks (nfd (normChars nfd lowChar s.data))).map
    lowChar).flatten.map repl1).map repl2)) = normChars nfd lowChar s.data
  rw [hnfd s.data]
  rw [show stripMarks (normChars nfd lowChar s.data) = normChars nfd lowChar s.data from
    List.filter_eq_self.mpr hynomark]
  rw [flatten_map_fix lowChar _ hylow]
  rw [map_fix repl1 _ hyrepl1, map_fix repl2 _ hyrepl2]
  show trimWs (collapseWs (trimWs (collapseWs _))) = trimWs (collapseWs _)
  rw [(normTail_fix _).1, (normTail_fix _).2]

/-- Witness for the idempotence theorem: the identity instantiations of the
NFD and lowercasing parameters satisfy its hypotheses, and the conclusion
is evaluated at a concrete string. -/
theorem normalize_idempotent_witness :
    normalizeSearchValue idNfd idLow
        (normalizeSearchValue idNfd idLow "  Hey,  (you)!  AND me  ") =
      normalizeSearchValue idNfd idLow "  Hey,  (you)!  AND me  " :=
  normalize_idempotent idNfd idLow (fun _ => rfl)
    (fun c d hd => by
      rcases List.mem_singleton.mp hd with rfl
      rfl)
    (fun l => by
      have hfl : ∀ m : List Char, (m.map idLow).flatten = m := by
        intro m
        induction m with
        | nil => rfl
        | cons c cs ih => simpa [idLow] using ih
      show stripMarks ((stripMarks l).map idLow).flatten = ((stripMarks l).map idLow).flatten
      rw [hfl]
      unfold stripMarks
      rw [List.filter_filter]
      simp)
    rfl "  Hey,  (you)!  AND me  "

end BeeperChat
